import Mathlib

/-!
Shallow embedding of the client-side conversation state machine of the
FRIDAY assistant (source file src/App.tsx): the message log and its
operations, persisted-history loading, the intent classifier, the
streaming chat flow, and the image-generation flow with its synthetic
progress timer.

Modelling conventions:
* genId() produces an opaque random identifier; identifiers are modelled
  as externally supplied Nat values (they are only ever compared for
  equality).
* External capabilities are parameters: localStorage is an
  Option String, JSON.parse is a function String → Option (List Message)
  (none models a parse exception), the chat stream is a list of text
  fragments plus an outcome, and the image endpoint is an
  Except String ImageResponse (error models a thrown transport error).
* The UI-visible side effects of the flows (setState calls, timer
  creation and cancellation, network calls) are reified as an effect
  trace (List Eff) interpreted over a UIState by runEffs.
-/

/-- Sender of a chat message (the source Message field named from). -/
inductive Sender where
  | user
  | assistant
  deriving DecidableEq

/-- One conversational turn (interface Message in App.tsx). -/
structure Message where
  id : Nat
  sender : Sender
  text : String
  image : Option String := none
  ts : Option Nat := none
  deriving DecidableEq

/-- The synthetic assistant welcome message seeded by loadHistory and
clearHistory. -/
def welcomeMsg (fresh : Nat) : Message :=
  { id := fresh, sender := .assistant, text := "FRIDAY online. Secure channel active." }

/-- loadHistory: read the persisted log.  An absent value, the empty
string (JS !r is also true of ""), or a value on which JSON.parse throws
falls back to the single welcome message; a successfully parsed value is
returned with no shape validation at all. -/
def loadHistory (stored : Option String) (parse : String → Option (List Message))
    (fresh : Nat) : List Message :=
  match stored with
  | none => [welcomeMsg fresh]
  | some r =>
    if r = "" then [welcomeMsg fresh]
    else
      match parse r with
      | some msgs => msgs
      | none => [welcomeMsg fresh]

/-- The streaming update pattern of handleSend,
setMessages(prev.map(m => m.id === id ? mutated m : m)), which is also
the updateById operation of the spec's Message Log contract. -/
def updateById (log : List Message) (id : Nat) (f : Message → Message) : List Message :=
  log.map fun m => if m.id = id then f m else m

/-- Abstract Message Log operations (spec section 4.1); reset models the
confirmed branch of clearHistory. -/
inductive LogOp where
  | append (m : Message)
  | update (id : Nat) (f : Message → Message)
  | reset (fresh : Nat)

def applyOp (log : List Message) : LogOp → List Message
  | .append m => log ++ [m]
  | .update id f => updateById log id f
  | .reset fresh => [welcomeMsg fresh]

def applyOps (log : List Message) (ops : List LogOp) : List Message :=
  ops.foldl applyOp log

lemma updateById_absent (log : List Message) (id : Nat) (f : Message → Message)
    (h : ∀ m ∈ log, m.id ≠ id) : updateById log id f = log := by
  induction log with
  | nil => rfl
  | cons a l ih =>
    have ha : a.id ≠ id := h a (List.mem_cons_self a l)
    have hl := ih (fun m hm => h m (List.mem_cons_of_mem a hm))
    simp only [updateById, List.map_cons, if_neg ha]
    exact congrArg (a :: ·) hl

lemma applyOp_ne_nil (log : List Message) (op : LogOp) (h : log ≠ []) :
    applyOp log op ≠ [] := by
  cases op with
  | append m => simp [applyOp]
  | update id f => simpa [applyOp, updateById] using h
  | reset fresh => simp [applyOp]

lemma applyOps_ne_nil (log : List Message) (ops : List LogOp) (h : log ≠ []) :
    applyOps log ops ≠ [] := by
  induction ops generalizing log with
  | nil => simpa [applyOps] using h
  | cons op ops ih => exact ih (applyOp log op) (applyOp_ne_nil log op h)

/-- C4: starting from any load of the store that is absent, corrupt
(unparseable), or a previously saved nonempty log, every sequence of
append / updateById / reset operations keeps the Message Log nonempty,
and ending the sequence with a reset yields exactly the one synthetic
assistant welcome message with the fixed welcome text. -/
theorem log_never_empty_reset_welcome (stored : Option String)
    (parse : String → Option (List Message)) (fresh : Nat) (ops : List LogOp)
    (h : stored = none ∨ (∃ r, stored = some r ∧ parse r = none)
        ∨ (∃ r l, stored = some r ∧ r ≠ "" ∧ parse r = some l ∧ l ≠ [])) :
    applyOps (loadHistory stored parse fresh) ops ≠ []
    ∧ ∀ f, applyOps (loadHistory stored parse fresh) (ops ++ [LogOp.reset f])
        = [{ id := f, sender := Sender.assistant,
             text := "FRIDAY online. Secure channel active.",
             image := none, ts := none }] := by
  have hload : loadHistory stored parse fresh ≠ [] := by
    rcases h with h | ⟨r, hr, hp⟩ | ⟨r, l, hr, hne, hp, hl⟩
    · simp [loadHistory, h]
    · subst hr
      by_cases he : r = "" <;> simp [loadHistory, he, hp]
    · subst hr
      simpa [loadHistory, hne, hp] using hl
  refine ⟨applyOps_ne_nil _ ops hload, ?_⟩
  intro f
  have hsplit : applyOps (loadHistory stored parse fresh) (ops ++ [LogOp.reset f])
      = applyOp (applyOps (loadHistory stored parse fresh) ops) (LogOp.reset f) := by
    simp [applyOps, List.foldl_append]
  rw [hsplit]
  rfl

/-- C4 witness: concrete run from an absent store with one append then a
reset. -/
theorem log_never_empty_reset_welcome_witness :
    applyOps (loadHistory none (fun _ => none) 0)
        [LogOp.append (welcomeMsg 7)] ≠ []
    ∧ applyOps (loadHistory none (fun _ => none) 0)
        ([LogOp.append (welcomeMsg 7)] ++ [LogOp.reset 1])
        = [{ id := 1, sender := Sender.assistant,
             text := "FRIDAY online. Secure channel active.",
             image := none, ts := none }] := by
  have h := log_never_empty_reset_welcome none (fun _ => none) 0
    [LogOp.append (welcomeMsg 7)] (Or.inl rfl)
  exact ⟨h.1, h.2 1⟩

/-- C7: updateById with an absent id is the identity on the log; with a
present id it rewrites exactly the targeted positions by the mutator,
keeps every other entry byte-for-byte, preserves the target's id and
sender whenever the mutator does, and composes under repetition. -/
theorem updateById_frame (log : List Message) (id : Nat) (f g : Message → Message)
    (hf : ∀ m, (f m).id = m.id ∧ (f m).sender = m.sender) :
    ((∀ m ∈ log, m.id ≠ id) → updateById log id f = log)
    ∧ (updateById log id f).length = log.length
    ∧ (∀ (i : Nat) (m : Message), log[i]? = some m → m.id ≠ id →
        (updateById log id f)[i]? = some m)
    ∧ (∀ (i : Nat) (m : Message), log[i]? = some m → m.id = id →
        (updateById log id f)[i]? = some (f m)
        ∧ (f m).id = m.id ∧ (f m).sender = m.sender)
    ∧ updateById (updateById log id f) id g = updateById log id (fun m => g (f m)) := by
  refine ⟨updateById_absent log id f, ?_, ?_, ?_, ?_⟩
  · simp [updateById]
  · intro i m him hne
    simp [updateById, List.getElem?_map, him, if_neg hne]
  · intro i m him hid
    refine ⟨?_, (hf m).1, (hf m).2⟩
    simp [updateById, List.getElem?_map, him, if_pos hid]
  · simp only [updateById, List.map_map]
    apply List.map_congr_left
    intro m _
    by_cases h : m.id = id
    · simp [Function.comp, h, (hf m).1]
    · simp [Function.comp, h]

/-- C7 witness: a two-message log, a text-only mutator, an absent id and
the present id. -/
theorem updateById_frame_witness :
    updateById [welcomeMsg 0, { id := 1, sender := Sender.user, text := "hi" }] 5
        (fun m => { m with text := "x" })
      = [welcomeMsg 0, { id := 1, sender := Sender.user, text := "hi" }]
    ∧ (updateById [welcomeMsg 0, { id := 1, sender := Sender.user, text := "hi" }] 1
        (fun m => { m with text := "x" }))[1]?
      = some { id := 1, sender := Sender.user, text := "x" } := by
  constructor
  · exact (updateById_frame _ 5 (fun m => { m with text := "x" })
      (fun m => { m with text := "x" }) (fun m => ⟨rfl, rfl⟩)).1 (by decide)
  · exact ((updateById_frame _ 1 (fun m => { m with text := "x" })
      (fun m => { m with text := "x" }) (fun m => ⟨rfl, rfl⟩)).2.2.2.1
      1 { id := 1, sender := Sender.user, text := "hi" } (by decide) rfl).1

/-- C9: loadHistory yields the synthetic welcome message exactly when the
store is absent or JSON.parse fails on it; any parse success is returned
as the log with no validation, so a stored "[]" loads as an empty log. -/
theorem loadHistory_parse_spec (stored : Option String)
    (parse : String → Option (List Message)) (fresh : Nat)
    (hempty : parse "" = none)
    (hfresh : ∀ r l, parse r = some l → ∀ m ∈ l, m.id ≠ fresh)
    (harr : parse "[]" = some []) :
    (loadHistory stored parse fresh = [welcomeMsg fresh]
        ↔ stored = none ∨ ∃ r, stored = some r ∧ parse r = none)
    ∧ (∀ r l, stored = some r → parse r = some l → loadHistory stored parse fresh = l)
    ∧ loadHistory (some "[]") parse fresh = [] := by
  refine ⟨?_, ?_, ?_⟩
  · cases stored with
    | none => simp [loadHistory]
    | some r =>
      by_cases he : r = ""
      · subst he
        simp [loadHistory, hempty]
      · rcases hp : parse r with _ | l
        · simp [loadHistory, he, hp]
        · have hval : loadHistory (some r) parse fresh = l := by
            simp [loadHistory, he, hp]
          rw [hval]
          constructor
          · intro hl
            exfalso
            exact hfresh r l hp (welcomeMsg fresh) (by rw [hl]; exact List.mem_singleton.mpr rfl) rfl
          · rintro (h | ⟨r', hr', hp'⟩)
            · exact absurd h (by simp)
            · rw [Option.some.injEq] at hr'
              rw [← hr'] at hp'
              rw [hp'] at hp
              exact absurd hp (by simp)
  · intro r l hr hp
    subst hr
    have he : r ≠ "" := by
      intro h
      rw [h, hempty] at hp
      exact absurd hp (by simp)
    simp [loadHistory, he, hp]
  · simp [loadHistory, harr]

/-- C9 witness: a parse capability that accepts exactly "[]" loads the
stored "[]" as an empty log. -/
theorem loadHistory_parse_spec_witness :
    loadHistory (some "[]") (fun s => if s = "[]" then some [] else none) 0 = [] := by
  have h := loadHistory_parse_spec (some "[]")
    (fun s => if s = "[]" then some [] else none) 0
    (by decide)
    (by
      intro r l hl m hm
      by_cases hr : r = "[]"
      · subst hr
        have hl' : l = [] := by simpa using hl.symm
        subst hl'
        exact absurd hm (by simp)
      · simp [hr] at hl)
    (by simp)
  exact h.2.2

/-- JS regex word character (the class matched by a backslash-w, used by
the word boundary assertion after a command token). -/
def isWordChar (c : Char) : Bool :=
  (c.isAlpha || c.isDigit) || c = '_'

/-- True when the position between a just-matched token and rest is a
regex word boundary (the token ends in a word character, so the boundary
holds iff rest starts with a non-word character or is empty). -/
def wordB : List Char → Bool
  | [] => true
  | c :: _ => !(isWordChar c)

/-- Exact prefix removal: some rest iff s = tok ++ rest. -/
def dropSeq : List Char → List Char → Option (List Char)
  | [], s => some s
  | _ :: _, [] => none
  | t :: ts, c :: cs => if c = t then dropSeq ts cs else none

/-- Case-insensitive prefix removal (regex flag i): input characters are
lower-cased before comparing with the lower-case token. -/
def dropSeqCI : List Char → List Char → Option (List Char)
  | [], s => some s
  | _ :: _, [] => none
  | t :: ts, c :: cs => if c.toLower = t then dropSeqCI ts cs else none

/-- Anchored token match with trailing word boundary (regex ^tok then a
word-boundary assertion). -/
def matchTok (tok s : List Char) : Option (List Char) :=
  match dropSeq tok s with
  | some r => if wordB r then some r else none
  | none => none

/-- Case-insensitive variant of matchTok (regex flag i). -/
def matchTokCI (tok s : List Char) : Option (List Char) :=
  match dropSeqCI tok s with
  | some r => if wordB r then some r else none
  | none => none

/-- startsSeq p s: p is a contiguous prefix of s. -/
def startsSeq : List Char → List Char → Bool
  | [], _ => true
  | _ :: _, [] => false
  | p :: ps, c :: cs => if c = p then startsSeq ps cs else false

/-- t.includes(k): k occurs contiguously somewhere in t. -/
def containsSeq (p : List Char) : List Char → Bool
  | [] => startsSeq p []
  | c :: cs => startsSeq p (c :: cs) || containsSeq p cs

/-- The fixed keyword list IMAGE_KEYWORDS of App.tsx. -/
def IMAGE_KEYWORDS : List String :=
  ["image", "generate", "create", "draw", "paint",
   "photo", "render", "illustrate", "picture", "design"]

/-- The three leading command tokens recognised by the classifier and the
image flow. -/
def cmdTokens : List String := ["/image", "/img", "/photo"]

/-- detectImageIntent: keyword containment on the lower-cased text, or
the anchored command-token regex on the same lower-cased text. -/
def detectImageIntent (text : String) : Bool :=
  let t := text.data.map Char.toLower
  IMAGE_KEYWORDS.any (fun k => containsSeq k.data t)
    || ((matchTok "/image".data t).isSome || (matchTok "/img".data t).isSome
        || (matchTok "/photo".data t).isSome)

/-- JS String.trim restricted to ASCII whitespace, on character lists. -/
def trimL (s : List Char) : List Char :=
  ((s.dropWhile Char.isWhitespace).reverse.dropWhile Char.isWhitespace).reverse

/-- JS String.trim on strings. -/
def trimS (s : String) : String := ⟨trimL s.data⟩

/-- prompt.replace of the anchored command-token regex with flags i and
g: because of the anchor, at most one leading token is removed. -/
def stripLeadCmd (s : List Char) : List Char :=
  match matchTokCI "/image".data s with
  | some r => r
  | none =>
    match matchTokCI "/img".data s with
    | some r => r
    | none =>
      match matchTokCI "/photo".data s with
      | some r => r
      | none => s

/-- The effective prompt of generateImageFlow: cleaned is the stripped
and trimmed prompt, and bodyPrompt is cleaned unless it is empty (falsy),
in which case the original prompt is used. -/
def effPrompt (prompt : String) : String :=
  let cleaned : String := ⟨trimL (stripLeadCmd prompt.data)⟩
  if cleaned = "" then prompt else cleaned

lemma startsSeq_iff (p s : List Char) : startsSeq p s = true ↔ ∃ r, s = p ++ r := by
  induction p generalizing s with
  | nil => simp [startsSeq]
  | cons a ps ih =>
    cases s with
    | nil => simp [startsSeq]
    | cons c cs =>
      by_cases hc : c = a
      · subst hc
        simp [startsSeq, ih]
      · simp [startsSeq, hc, Ne.symm hc]

lemma containsSeq_iff (p s : List Char) :
    containsSeq p s = true ↔ ∃ pre post, s = pre ++ (p ++ post) := by
  induction s with
  | nil =>
    simp only [containsSeq, startsSeq_iff]
    constructor
    · rintro ⟨r, hr⟩
      exact ⟨[], r, by simpa using hr⟩
    · rintro ⟨pre, post, h⟩
      rcases List.append_eq_nil.mp h.symm with ⟨h1, h2⟩
      rcases List.append_eq_nil.mp h2 with ⟨h3, h4⟩
      exact ⟨[], by simp [h3]⟩
  | cons c cs ih =>
    simp only [containsSeq, Bool.or_eq_true, startsSeq_iff, ih]
    constructor
    · rintro (⟨r, hr⟩ | ⟨pre, post, h⟩)
      · exact ⟨[], r, by simpa using hr⟩
      · exact ⟨c :: pre, post, by simp [h]⟩
    · rintro ⟨pre, post, h⟩
      cases pre with
      | nil =>
        exact Or.inl ⟨post, by simpa using h⟩
      | cons x xs =>
        rw [List.cons_append, List.cons.injEq] at h
        exact Or.inr ⟨xs, post, h.2⟩

lemma dropSeq_eq_some (t s r : List Char) : dropSeq t s = some r ↔ s = t ++ r := by
  induction t generalizing s with
  | nil => simp [dropSeq, eq_comm]
  | cons a ts ih =>
    cases s with
    | nil => simp [dropSeq]
    | cons c cs =>
      by_cases hc : c = a
      · subst hc
        simp [dropSeq, ih]
      · simp [dropSeq, hc, Ne.symm hc]

lemma dropSeqCI_eq_some (t s r : List Char) :
    dropSeqCI t s = some r ↔ ∃ pre, s = pre ++ r ∧ pre.map Char.toLower = t := by
  induction t generalizing s with
  | nil =>
    simp only [dropSeqCI, Option.some.injEq]
    constructor
    · intro h
      exact ⟨[], by simp [h.symm]⟩
    · rintro ⟨pre, h1, h2⟩
      have hp : pre = [] := List.map_eq_nil_iff.mp h2
      subst hp
      simpa using h1
  | cons a ts ih =>
    cases s with
    | nil =>
      simp only [dropSeqCI]
      constructor
      · intro h
        exact absurd h (by simp)
      · rintro ⟨pre, h1, h2⟩
        rcases List.append_eq_nil.mp h1.symm with ⟨hp, _⟩
        subst hp
        exact absurd h2 (by simp)
    | cons c cs =>
      by_cases hc : c.toLower = a
      · simp only [dropSeqCI, if_pos hc, ih]
        constructor
        · rintro ⟨pre, h1, h2⟩
          exact ⟨c :: pre, by simp [h1], by simp [h2, hc]⟩
        · rintro ⟨pre, h1, h2⟩
          cases pre with
          | nil => exact absurd h2 (by simp)
          | cons x xs =>
            rw [List.cons_append, List.cons.injEq] at h1
            rw [List.map_cons, List.cons.injEq] at h2
            exact ⟨xs, h1.2, h2.2⟩
      · simp only [dropSeqCI, if_neg hc]
        constructor
        · intro h
          exact absurd h (by simp)
        · rintro ⟨pre, h1, h2⟩
          cases pre with
          | nil => exact absurd h2 (by simp)
          | cons x xs =>
            rw [List.cons_append, List.cons.injEq] at h1
            rw [List.map_cons, List.cons.injEq] at h2
            exact absurd (h1.1 ▸ h2.1) hc

lemma matchTok_eq_some (tok s r : List Char) :
    matchTok tok s = some r ↔ s = tok ++ r ∧ wordB r = true := by
  unfold matchTok
  rcases h : dropSeq tok s with _ | r0
  · constructor
    · intro hh
      exact absurd hh (by simp)
    · rintro ⟨h1, _⟩
      rw [← dropSeq_eq_some tok s r] at h1
      rw [h1] at h
      exact absurd h (by simp)
  · have h0 : s = tok ++ r0 := (dropSeq_eq_some tok s r0).mp h
    by_cases hw : wordB r0 = true
    · simp only [if_pos hw, Option.some.injEq]
      constructor
      · intro hh
        subst hh
        exact ⟨h0, hw⟩
      · rintro ⟨h1, _⟩
        rw [h0] at h1
        exact List.append_cancel_left h1
    · simp only [if_neg hw]
      constructor
      · intro hh
        exact absurd hh (by simp)
      · rintro ⟨h1, h2⟩
        rw [h0] at h1
        have hrr : r0 = r := List.append_cancel_left h1
        rw [← hrr] at h2
        exact absurd h2 hw

lemma matchTokCI_eq_some (tok s r : List Char) :
    matchTokCI tok s = some r
      ↔ (∃ pre, s = pre ++ r ∧ pre.map Char.toLower = tok) ∧ wordB r = true := by
  unfold matchTokCI
  rcases h : dropSeqCI tok s with _ | r0
  · constructor
    · intro hh
      exact absurd hh (by simp)
    · rintro ⟨h1, _⟩
      rw [← dropSeqCI_eq_some tok s r] at h1
      rw [h1] at h
      exact absurd h (by simp)
  · rcases (dropSeqCI_eq_some tok s r0).mp h with ⟨pre0, hs0, hm0⟩
    by_cases hw : wordB r0 = true
    · simp only [if_pos hw, Option.some.injEq]
      constructor
      · intro hh
        subst hh
        exact ⟨⟨pre0, hs0, hm0⟩, hw⟩
      · rintro ⟨⟨pre, h1, h2⟩, _⟩
        have hlen : pre.length = pre0.length := by
          have l1 : pre.length = tok.length := by rw [← h2]; simp
          have l2 : pre0.length = tok.length := by rw [← hm0]; simp
          rw [l1, l2]
        have := List.append_inj (by rw [← h1, ← hs0]) hlen
        exact this.2.symm
    · simp only [if_neg hw]
      constructor
      · intro hh
        exact absurd hh (by simp)
      · rintro ⟨⟨pre, h1, h2⟩, h3⟩
        have hlen : pre.length = pre0.length := by
          have l1 : pre.length = tok.length := by rw [← h2]; simp
          have l2 : pre0.length = tok.length := by rw [← hm0]; simp
          rw [l1, l2]
        have := List.append_inj (by rw [← h1, ← hs0]) hlen
        rw [← this.2] at hw
        exact absurd h3 hw

lemma dropSeqCI_toLower_take (t s r : List Char) (h : dropSeqCI t s = some r) :
    (s.map Char.toLower).take t.length = t := by
  rcases (dropSeqCI_eq_some t s r).mp h with ⟨pre, h1, h2⟩
  rw [h1, List.map_append, ← h2]
  exact List.take_left _ _

lemma cmdTok_clash (t1 t2 s r1 r2 : List Char) (h1 : dropSeqCI t1 s = some r1)
    (h2 : dropSeqCI t2 s = some r2) (hlen : t2.length ≤ t1.length) :
    t1.take t2.length = t2 := by
  have a1 := dropSeqCI_toLower_take t1 s r1 h1
  have a2 := dropSeqCI_toLower_take t2 s r2 h2
  calc t1.take t2.length
      = ((s.map Char.toLower).take t1.length).take t2.length := by rw [a1]
    _ = (s.map Char.toLower).take t2.length := by
        rw [List.take_take, Nat.min_eq_left hlen]
    _ = t2 := a2

lemma matchTokCI_drop (tok s r : List Char) (h : matchTokCI tok s = some r) :
    dropSeqCI tok s = some r := by
  rcases (matchTokCI_eq_some tok s r).mp h with ⟨⟨pre, h1, h2⟩, _⟩
  exact (dropSeqCI_eq_some tok s r).mpr ⟨pre, h1, h2⟩

lemma stripLeadCmd_of_match (tok : String) (htok : tok ∈ cmdTokens)
    (s rest : List Char) (h : matchTokCI tok.data s = some rest) :
    stripLeadCmd s = rest := by
  simp only [cmdTokens, List.mem_cons, List.mem_singleton, List.not_mem_nil,
    or_false] at htok
  rcases htok with h1 | h1 | h1 <;> subst h1
  · simp [stripLeadCmd, h]
  · have himage : matchTokCI "/image".data s = none := by
      rcases hm : matchTokCI "/image".data s with _ | r'
      · rfl
      · exfalso
        have d1 := matchTokCI_drop _ _ _ hm
        have d2 := matchTokCI_drop _ _ _ h
        have hc := cmdTok_clash "/image".data "/img".data s r' rest d1 d2 (by decide)
        exact absurd hc (by decide)
    simp [stripLeadCmd, himage, h]
  · have himage : matchTokCI "/image".data s = none := by
      rcases hm : matchTokCI "/image".data s with _ | r'
      · rfl
      · exfalso
        have d1 := matchTokCI_drop _ _ _ hm
        have d2 := matchTokCI_drop _ _ _ h
        have hc := cmdTok_clash "/photo".data "/image".data s rest r' d2 d1 (by decide)
        exact absurd hc (by decide)
    have himg : matchTokCI "/img".data s = none := by
      rcases hm : matchTokCI "/img".data s with _ | r'
      · rfl
      · exfalso
        have d1 := matchTokCI_drop _ _ _ hm
        have d2 := matchTokCI_drop _ _ _ h
        have hc := cmdTok_clash "/photo".data "/img".data s rest r' d2 d1 (by decide)
        exact absurd hc (by decide)
    simp [stripLeadCmd, himage, himg, h]

lemma stripLeadCmd_no_match (s : List Char)
    (h : ∀ tok ∈ cmdTokens, matchTokCI tok.data s = none) : stripLeadCmd s = s := by
  have h1 := h "/image" (by simp [cmdTokens])
  have h2 := h "/img" (by simp [cmdTokens])
  have h3 := h "/photo" (by simp [cmdTokens])
  simp [stripLeadCmd, h1, h2, h3]

/-- C5: the classifier is the pure function returning image exactly when
the lower-cased input contains one of the fixed keywords or starts with
one of the command tokens at a word boundary; with the three concrete
examples of the spec. -/
theorem detectImageIntent_spec (s : String) :
    (detectImageIntent s = true ↔
      (∃ k, k ∈ IMAGE_KEYWORDS ∧ ∃ pre post,
          s.data.map Char.toLower = pre ++ (k.data ++ post))
      ∨ (∃ tok, tok ∈ cmdTokens ∧ ∃ rest,
          s.data.map Char.toLower = tok.data ++ rest ∧ wordB rest = true))
    ∧ detectImageIntent "draw a cat" = true
    ∧ detectImageIntent "hello there" = false
    ∧ detectImageIntent "/img sunset" = true := by
  refine ⟨?_, by decide, by decide, by decide⟩
  unfold detectImageIntent
  simp only [Bool.or_eq_true, List.any_eq_true, Option.isSome_iff_exists]
  constructor
  · rintro (⟨k, hk, hc⟩ | ((⟨r, hr⟩ | ⟨r, hr⟩) | ⟨r, hr⟩))
    · rcases (containsSeq_iff _ _).mp hc with ⟨pre, post, hd⟩
      exact Or.inl ⟨k, hk, pre, post, hd⟩
    · rcases (matchTok_eq_some _ _ _).mp hr with ⟨hd, hw⟩
      exact Or.inr ⟨"/image", by simp [cmdTokens], r, hd, hw⟩
    · rcases (matchTok_eq_some _ _ _).mp hr with ⟨hd, hw⟩
      exact Or.inr ⟨"/img", by simp [cmdTokens], r, hd, hw⟩
    · rcases (matchTok_eq_some _ _ _).mp hr with ⟨hd, hw⟩
      exact Or.inr ⟨"/photo", by simp [cmdTokens], r, hd, hw⟩
  · rintro (⟨k, hk, pre, post, hd⟩ | ⟨tok, htok, rest, hd, hw⟩)
    · exact Or.inl ⟨k, hk, (containsSeq_iff _ _).mpr ⟨pre, post, hd⟩⟩
    · simp only [cmdTokens, List.mem_cons, List.mem_singleton, List.not_mem_nil,
        or_false] at htok
      rcases htok with h1 | h1 | h1 <;> subst h1
      · exact Or.inr (Or.inl (Or.inl ⟨rest, (matchTok_eq_some _ _ _).mpr ⟨hd, hw⟩⟩))
      · exact Or.inr (Or.inl (Or.inr ⟨rest, (matchTok_eq_some _ _ _).mpr ⟨hd, hw⟩⟩))
      · exact Or.inr (Or.inr ⟨rest, (matchTok_eq_some _ _ _).mpr ⟨hd, hw⟩⟩)

/-- C5 witness: the classifier at the three spec examples. -/
theorem detectImageIntent_spec_witness :
    detectImageIntent "draw a cat" = true
    ∧ detectImageIntent "hello there" = false
    ∧ detectImageIntent "/img sunset" = true :=
  ⟨(detectImageIntent_spec "draw a cat").2.1,
   (detectImageIntent_spec "hello there").2.2.1,
   (detectImageIntent_spec "/img sunset").2.2.2⟩

/-- The empty assistant message pre-allocated before streaming starts. -/
def mkAssistant (aid : Nat) : Message := { id := aid, sender := .assistant, text := "" }

/-- Outcome of one chat send: the fragments streamed, and on failure the
error message thrown after them. -/
inductive ChatOutcome where
  | success (frags : List String)
  | failure (frags : List String) (emsg : String)

/-- The JS idiom err.message || String(err): a falsy (empty) message
falls back to the stringified error, which is never the empty string. -/
def jsDisplay (emsg : String) : String := if emsg = "" then "Error" else emsg

/-- The fixed prefix of the chat error text shown in the log. -/
def errPrefix : String := "FRIDAY couldn't reach the AI. "

/-- The for-await loop of handleSend: fullReply += chunk.text, then an
updateById of the pre-allocated assistant message per fragment. -/
def streamInto (log : List Message) (aid : Nat) (acc : String) :
    List String → List Message × String
  | [] => (log, acc)
  | f :: fs =>
    streamInto (updateById log aid (fun m => { m with text := acc ++ f })) aid (acc ++ f) fs

/-- The text-chat branch of handleSend: append the empty assistant
message, then run the streaming loop. -/
def sendStream (log : List Message) (aid : Nat) (frags : List String) :
    List Message × String :=
  streamInto (log ++ [mkAssistant aid]) aid "" frags

/-- Concatenation of the fragments in arrival order. -/
def concatAll (frags : List String) : String := frags.foldl (fun a b => a ++ b) ""

/-- The whole chat send including the catch branch: on failure the
partially built assistant message is overwritten with the error text and
the last-error slot is set. -/
def sendMessageFlow (log : List Message) (aid : Nat) : ChatOutcome → List Message × Option String
  | .success frags => ((sendStream log aid frags).1, none)
  | .failure frags emsg =>
    (updateById (sendStream log aid frags).1 aid
        (fun m => { m with text := errPrefix ++ jsDisplay emsg }),
      some (jsDisplay emsg))

lemma updateById_append_last (log : List Message) (m : Message) (id : Nat)
    (f : Message → Message) (hfresh : ∀ x ∈ log, x.id ≠ id) (hm : m.id = id) :
    updateById (log ++ [m]) id f = log ++ [f m] := by
  have h1 : updateById log id f = log := updateById_absent log id f hfresh
  simp only [updateById] at h1 ⊢
  rw [List.map_append, h1]
  simp [hm]

lemma streamInto_run (log : List Message) (aid : Nat) (m : Message) (acc : String)
    (frags : List String) (hm : m.id = aid) (ht : m.text = acc)
    (hfresh : ∀ x ∈ log, x.id ≠ aid) :
    streamInto (log ++ [m]) aid acc frags
      = (log ++ [{ m with text := frags.foldl (fun a b => a ++ b) acc }],
         frags.foldl (fun a b => a ++ b) acc) := by
  induction frags generalizing m acc with
  | nil =>
    rw [← ht]
    rfl
  | cons f fs ih =>
    simp only [streamInto, List.foldl_cons]
    rw [updateById_append_last log m aid _ hfresh hm]
    exact ih { m with text := acc ++ f } (acc ++ f) hm rfl

/-- C1: during one streamed send with a fresh pre-allocated id, after any
prefix of the fragments the log is exactly the old log plus one assistant
message carrying the pre-allocated id whose text is the concatenation of
the fragments received so far; the message with that id is unique, its
sender and id never change, and there is exactly one log update per
fragment. -/
theorem sendStream_builds_concat (log : List Message) (aid : Nat)
    (frags : List String) (hfresh : ∀ x ∈ log, x.id ≠ aid) (k : Nat) :
    (sendStream log aid (frags.take k)).1
      = log ++ [{ id := aid, sender := Sender.assistant,
                  text := concatAll (frags.take k), image := none, ts := none }]
    ∧ ((sendStream log aid (frags.take k)).1.filter (fun m => m.id = aid)).length = 1
    ∧ (∀ m ∈ (sendStream log aid (frags.take k)).1, m.id = aid →
        m.sender = Sender.assistant ∧ m.text = concatAll (frags.take k))
    ∧ (sendStream log aid (frags.take k)).2 = concatAll (frags.take k) := by
  have h := streamInto_run log aid (mkAssistant aid) "" (frags.take k) rfl rfl hfresh
  have h1 : (sendStream log aid (frags.take k)).1
      = log ++ [{ id := aid, sender := Sender.assistant,
                  text := concatAll (frags.take k), image := none, ts := none }] := by
    unfold sendStream
    rw [h]
    simp [mkAssistant, concatAll]
  refine ⟨h1, ?_, ?_, ?_⟩
  · rw [h1, List.filter_append]
    have hl : log.filter (fun m => m.id = aid) = [] := by
      rw [List.filter_eq_nil_iff]
      intro m hm
      simpa using hfresh m hm
    rw [hl]
    simp
  · intro m hm hid
    rw [h1] at hm
    rcases List.mem_append.mp hm with hmem | hmem
    · exact absurd hid (hfresh m hmem)
    · rw [List.mem_singleton.mp hmem]
      exact ⟨rfl, rfl⟩
  · unfold sendStream
    rw [h]
    simp [concatAll]

/-- C1 witness: the spec's simulated session with fragments Hel and lo,
checked after each of the two fragments. -/
theorem sendStream_builds_concat_witness :
    (sendStream [] 1 (["Hel", "lo"].take 1)).1
      = [{ id := 1, sender := Sender.assistant, text := "Hel",
           image := none, ts := none }]
    ∧ (sendStream [] 1 (["Hel", "lo"].take 2)).1
      = [{ id := 1, sender := Sender.assistant, text := "Hello",
           image := none, ts := none }]
    ∧ ((sendStream [] 1 (["Hel", "lo"].take 2)).1.filter (fun m => m.id = 1)).length = 1 := by
  have h1 := sendStream_builds_concat [] 1 ["Hel", "lo"] (by simp) 1
  have h2 := sendStream_builds_concat [] 1 ["Hel", "lo"] (by simp) 2
  refine ⟨?_, ?_, h2.2.1⟩
  · rw [h1.1]
    rfl
  · rw [h2.1]
    rfl

/-- C3: when the stream fails after any number of fragments, the
pre-allocated assistant message's text is overwritten with the
user-visible error string, the last-error slot is non-null, and every
other message of the log is untouched. -/
theorem sendFlow_error_overwrites (log : List Message) (aid : Nat)
    (frags : List String) (emsg : String) (hfresh : ∀ x ∈ log, x.id ≠ aid) :
    (sendMessageFlow log aid (.failure frags emsg)).1
      = log ++ [{ id := aid, sender := Sender.assistant,
                  text := errPrefix ++ jsDisplay emsg, image := none, ts := none }]
    ∧ (sendMessageFlow log aid (.failure frags emsg)).2 = some (jsDisplay emsg)
    ∧ (sendMessageFlow log aid (.failure frags emsg)).2 ≠ none
    ∧ ∀ i : Nat, i < log.length →
        ((sendMessageFlow log aid (.failure frags emsg)).1)[i]? = log[i]? := by
  have h := streamInto_run log aid (mkAssistant aid) "" frags rfl rfl hfresh
  have h1 : (sendMessageFlow log aid (.failure frags emsg)).1
      = log ++ [{ id := aid, sender := Sender.assistant,
                  text := errPrefix ++ jsDisplay emsg, image := none, ts := none }] := by
    show (updateById (sendStream log aid frags).1 aid
        (fun m => { m with text := errPrefix ++ jsDisplay emsg })) = _
    unfold sendStream
    rw [h]
    rw [updateById_append_last log _ aid _ hfresh rfl]
    simp [mkAssistant]
  refine ⟨h1, rfl, by simp [sendMessageFlow], ?_⟩
  intro i hi
  rw [h1, List.getElem?_append, if_pos hi]

/-- Inline image payload (inlineData of the first candidate part). -/
structure ImagePart where
  mimeType : String
  data : String
  deriving DecidableEq

/-- The shape generateImageFlow consumes from the image capability:
candidates[0].content.parts[0].inlineData when present, and the finish
reason used only for the console warning. -/
structure ImageResponse where
  inline : Option ImagePart := none
  finishReason : Option String := none
  deriving DecidableEq

/-- The fixed error thrown when the well-formed response has no inline
image data. -/
def noImageErr : String :=
  "No image data was returned. The prompt may have been blocked for safety reasons."

/-- The fixed failure message appended by the image flow's catch branch
(no image field, no timestamp). -/
def failMsg (fresh : Nat) : Message :=
  { id := fresh, sender := .assistant, text := "Image generation failed." }

/-- Reified UI side effects of the flows. -/
inductive Eff where
  | setThinking (b : Bool)
  | setGenerating (b : Bool)
  | setErr (s : Option String)
  | setInput (s : String)
  | setProgress (p : Nat)
  | startTimer (tid : Nat)
  | clearTimer (tid : Nat)
  | appendMsg (m : Message)
  | updateMsg (id : Nat) (text : String)
  | callChat (text : String)
  | callImage (prompt : String)
  | scheduleProgressReset
  deriving DecidableEq

def isAppendEff : Eff → Bool
  | .appendMsg _ => true
  | _ => false

/-- The catch branch of generateImageFlow: cancel the timer, append the
fixed failure message, surface the error to the last-error slot. -/
def imageCatchEffs (tid fresh : Nat) (emsg : String) : List Eff :=
  [.clearTimer tid, .appendMsg (failMsg fresh), .setErr (some (jsDisplay emsg))]

/-- The assistant message appended on image success: caption with the
effective prompt, and the data-URI image payload. -/
def okImageMsg (prompt : String) (p : ImagePart) (fresh ts : Nat) : Message :=
  { id := fresh, sender := .assistant,
    text := "Generated image: \"" ++ effPrompt prompt ++ "\"",
    image := some ("data:" ++ p.mimeType ++ ";base64," ++ p.data),
    ts := some ts }

/-- The effect trace of generateImageFlow: flags and synthetic-progress
bookkeeping, the request with the effective prompt, then either the
success append, the no-inline-data throw handled by the catch branch, or
the transport error handled by the same catch branch; the timer is also
cancelled right after the response arrives, and the finally part always
runs. -/
def generateImageFlowTrace (prompt : String) (resp : Except String ImageResponse)
    (tid fresh ts : Nat) : List Eff :=
  [.setGenerating true, .setErr none, .startTimer tid, .setProgress 6,
   .callImage (effPrompt prompt)] ++
  (match resp with
   | .ok r =>
     [.clearTimer tid, .setProgress 80] ++
     (match r.inline with
      | some p => [.appendMsg (okImageMsg prompt p fresh ts), .setProgress 100]
      | none => imageCatchEffs tid fresh noImageErr)
   | .error e => imageCatchEffs tid fresh e) ++
  [.setGenerating false, .scheduleProgressReset]

/-- The component state the flows mutate. -/
structure UIState where
  messages : List Message
  input : String
  lastError : Option String
  thinking : Bool
  generating : Bool
  progress : Nat
  timers : List Nat
  deriving DecidableEq

def applyEff (st : UIState) : Eff → UIState
  | .setThinking b => { st with thinking := b }
  | .setGenerating b => { st with generating := b }
  | .setErr s => { st with lastError := s }
  | .setInput s => { st with input := s }
  | .setProgress p => { st with progress := p }
  | .startTimer tid => { st with timers := st.timers ++ [tid] }
  | .clearTimer tid => { st with timers := st.timers.filter (fun x => x != tid) }
  | .appendMsg m => { st with messages := st.messages ++ [m] }
  | .updateMsg id text =>
    { st with messages := updateById st.messages id (fun m => { m with text := text }) }
  | .callChat _ => st
  | .callImage _ => st
  | .scheduleProgressReset => st

def runEffs (st : UIState) (effs : List Eff) : UIState := effs.foldl applyEff st

/-- The user message appended by handleSend before dispatching. -/
def userMsg (uid : Nat) (text : String) (ts : Nat) : Message :=
  { id := uid, sender := .user, text := text, ts := some ts }

/-- One updateMsg effect per streamed fragment, carrying the growing
concatenation. -/
def chatUpdates (aid : Nat) (acc : String) : List String → List Eff
  | [] => []
  | f :: fs => .updateMsg aid (acc ++ f) :: chatUpdates aid (acc ++ f) fs

/-- Effect trace of the text-chat branch of handleSend. -/
def chatFlowTrace (aid : Nat) (text : String) (oc : ChatOutcome) : List Eff :=
  [.setThinking true, .appendMsg (mkAssistant aid), .callChat text] ++
  (match oc with
   | .success frags => chatUpdates aid "" frags
   | .failure frags emsg =>
     chatUpdates aid "" frags
       ++ [.updateMsg aid (errPrefix ++ jsDisplay emsg), .setErr (some (jsDisplay emsg))]) ++
  [.setThinking false]

/-- Effect trace of handleSend: nothing at all when the trimmed input is
empty or the chat session is unavailable; otherwise clear the last
error, append the user message, clear the composer, and dispatch on the
classifier. -/
def handleSendTrace (input : String) (chatReady : Bool) (uid aid tid imgId ts : Nat)
    (oc : ChatOutcome) (imgResp : Except String ImageResponse) : List Eff :=
  if trimS input = "" ∨ chatReady = false then []
  else
    [.setErr none, .appendMsg (userMsg uid (trimS input) ts), .setInput ""] ++
    (if detectImageIntent (trimS input) then
      generateImageFlowTrace (trimS input) imgResp tid imgId ts
    else chatFlowTrace aid (trimS input) oc)

lemma filter_bne_of_not_mem (l : List Nat) (t : Nat) (h : t ∉ l) :
    l.filter (fun x => x != t) = l := by
  rw [List.filter_eq_self]
  intro a ha
  simp only [bne_iff_ne, ne_eq]
  intro hc
  exact h (hc ▸ ha)

lemma timers_start_clear (l : List Nat) (t : Nat) (h : t ∉ l) :
    (l ++ [t]).filter (fun x => x != t) = l := by
  rw [List.filter_append, filter_bne_of_not_mem l t h]
  simp

lemma strMk_eq_empty (l : List Char) : ((⟨l⟩ : String) = "") ↔ l = [] := by
  constructor
  · intro h
    exact congrArg String.data h
  · intro h
    rw [h]

/-- C2: an HTTP-success response with no inline image data takes exactly
the transport-failure path: one assistant message appended with the fixed
failure caption and no image field, and a non-empty last-error slot; the
appended message is the same one a transport error appends. -/
theorem imageFlow_refusal_like_transport (st : UIState) (prompt : String)
    (r : ImageResponse) (tid fresh ts : Nat) (hr : r.inline = none) :
    (runEffs st (generateImageFlowTrace prompt (.ok r) tid fresh ts)).messages
      = st.messages ++ [failMsg fresh]
    ∧ (failMsg fresh).text = "Image generation failed."
    ∧ (failMsg fresh).sender = Sender.assistant
    ∧ (failMsg fresh).image = none
    ∧ ((generateImageFlowTrace prompt (.ok r) tid fresh ts).filter isAppendEff).length = 1
    ∧ (∃ s, (runEffs st (generateImageFlowTrace prompt (.ok r) tid fresh ts)).lastError
          = some s ∧ s ≠ "")
    ∧ ∀ e : String,
        (runEffs st (generateImageFlowTrace prompt (.error e) tid fresh ts)).messages
          = st.messages ++ [failMsg fresh] := by
  refine ⟨?_, rfl, rfl, rfl, ?_, ?_, ?_⟩
  · simp [generateImageFlowTrace, hr, imageCatchEffs, runEffs, applyEff]
  · simp [generateImageFlowTrace, hr, imageCatchEffs, isAppendEff]
  · refine ⟨jsDisplay noImageErr, ?_, by decide⟩
    simp [generateImageFlowTrace, hr, imageCatchEffs, runEffs, applyEff]
  · intro e
    simp [generateImageFlowTrace, imageCatchEffs, runEffs, applyEff]

/-- C2 witness: a concrete refusal response against an empty UI state. -/
theorem imageFlow_refusal_like_transport_witness :
    (runEffs ⟨[], "", none, false, false, 0, []⟩
        (generateImageFlowTrace "draw x" (.ok ⟨none, some "SAFETY"⟩) 3 4 5)).messages
      = [failMsg 4]
    ∧ ∃ s, (runEffs ⟨[], "", none, false, false, 0, []⟩
        (generateImageFlowTrace "draw x" (.ok ⟨none, some "SAFETY"⟩) 3 4 5)).lastError
          = some s ∧ s ≠ "" := by
  have h := imageFlow_refusal_like_transport ⟨[], "", none, false, false, 0, []⟩
    "draw x" ⟨none, some "SAFETY"⟩ 3 4 5 rfl
  exact ⟨h.1, h.2.2.2.2.2.1⟩

/-- C8: the synthetic progress timer started by the image flow is always
cancelled before the flow returns, on the success, refusal and transport
paths alike: the trace cancels the timer after starting it, and a timer
id not active before the flow is not active after it. -/
theorem imageFlow_timer_cancelled (st : UIState) (prompt : String)
    (resp : Except String ImageResponse) (tid fresh ts : Nat) (h : tid ∉ st.timers) :
    (runEffs st (generateImageFlowTrace prompt resp tid fresh ts)).timers = st.timers
    ∧ ∃ l1 l2, generateImageFlowTrace prompt resp tid fresh ts
        = l1 ++ Eff.clearTimer tid :: l2 ∧ Eff.startTimer tid ∈ l1 := by
  constructor
  · rcases resp with e | r
    · simp [generateImageFlowTrace, imageCatchEffs, runEffs, applyEff,
        timers_start_clear _ _ h, filter_bne_of_not_mem _ _ h]
    · rcases hri : r.inline with _ | p
      · simp [generateImageFlowTrace, hri, imageCatchEffs, runEffs, applyEff,
          timers_start_clear _ _ h, filter_bne_of_not_mem _ _ h]
      · simp [generateImageFlowTrace, hri, runEffs, applyEff,
          timers_start_clear _ _ h, filter_bne_of_not_mem _ _ h]
  · rcases resp with e | r
    · refine ⟨[.setGenerating true, .setErr none, .startTimer tid, .setProgress 6,
        .callImage (effPrompt prompt)],
        [.appendMsg (failMsg fresh), .setErr (some (jsDisplay e)),
         .setGenerating false, .scheduleProgressReset], ?_, by simp⟩
      simp [generateImageFlowTrace, imageCatchEffs]
    · refine ⟨[.setGenerating true, .setErr none, .startTimer tid, .setProgress 6,
        .callImage (effPrompt prompt)],
        [.setProgress 80] ++
          (match r.inline with
           | some p => [.appendMsg (okImageMsg prompt p fresh ts), .setProgress 100]
           | none => imageCatchEffs tid fresh noImageErr) ++
          [.setGenerating false, .scheduleProgressReset], ?_, by simp⟩
      simp [generateImageFlowTrace]

/-- C8 witness: success, refusal and transport runs against a concrete
state with no live timer. -/
theorem imageFlow_timer_cancelled_witness :
    (runEffs ⟨[], "", none, false, false, 0, []⟩
        (generateImageFlowTrace "x" (.ok ⟨some ⟨"image/png", "QUJD"⟩, none⟩) 9 1 2)).timers = []
    ∧ (runEffs ⟨[], "", none, false, false, 0, []⟩
        (generateImageFlowTrace "x" (.ok ⟨none, none⟩) 9 1 2)).timers = []
    ∧ (runEffs ⟨[], "", none, false, false, 0, []⟩
        (generateImageFlowTrace "x" (.error "boom") 9 1 2)).timers = [] :=
  ⟨(imageFlow_timer_cancelled ⟨[], "", none, false, false, 0, []⟩ "x"
      (.ok ⟨some ⟨"image/png", "QUJD"⟩, none⟩) 9 1 2 (by simp)).1,
   (imageFlow_timer_cancelled ⟨[], "", none, false, false, 0, []⟩ "x"
      (.ok ⟨none, none⟩) 9 1 2 (by simp)).1,
   (imageFlow_timer_cancelled ⟨[], "", none, false, false, 0, []⟩ "x"
      (.error "boom") 9 1 2 (by simp)).1⟩

/-- C6: the image flow sends the effective prompt: a leading command
token (matched case-insensitively up to a word boundary) is removed and
the result trimmed; if nothing of it is left the original raw prompt is
sent; with the spec's two examples. -/
theorem effPrompt_spec (p : String) (resp : Except String ImageResponse)
    (tid fresh ts : Nat) :
    Eff.callImage (effPrompt p) ∈ generateImageFlowTrace p resp tid fresh ts
    ∧ (∀ tok rest, tok ∈ cmdTokens →
        (matchTokCI tok.data p.data = some rest ↔
          (∃ pre, p.data = pre ++ rest ∧ pre.map Char.toLower = tok.data)
          ∧ wordB rest = true))
    ∧ (∀ tok rest, tok ∈ cmdTokens → matchTokCI tok.data p.data = some rest →
        effPrompt p = if trimL rest = [] then p else ⟨trimL rest⟩)
    ∧ ((∀ tok ∈ cmdTokens, matchTokCI tok.data p.data = none) →
        effPrompt p = if trimL p.data = [] then p else ⟨trimL p.data⟩)
    ∧ effPrompt "/img sunset" = "sunset"
    ∧ effPrompt "/image" = "/image" := by
  refine ⟨?_, ?_, ?_, ?_, by decide, by decide⟩
  · rcases resp with e | r
    · simp [generateImageFlowTrace]
    · simp [generateImageFlowTrace]
  · intro tok rest _
    exact matchTokCI_eq_some tok.data p.data rest
  · intro tok rest htok hm
    have hs := stripLeadCmd_of_match tok htok p.data rest hm
    simp only [effPrompt]
    rw [hs]
    by_cases ht : trimL rest = []
    · rw [if_pos ((strMk_eq_empty _).mpr ht), if_pos ht]
    · rw [if_neg (fun hc => ht ((strMk_eq_empty _).mp hc)), if_neg ht]
  · intro hnone
    have hs := stripLeadCmd_no_match p.data hnone
    simp only [effPrompt]
    rw [hs]
    by_cases ht : trimL p.data = []
    · rw [if_pos ((strMk_eq_empty _).mpr ht), if_pos ht]
    · rw [if_neg (fun hc => ht ((strMk_eq_empty _).mp hc)), if_neg ht]

/-- C6 witness: the stripped prompt of "/img sunset" and the fallback for
a bare "/image", and the request effect carrying the effective prompt. -/
theorem effPrompt_spec_witness :
    effPrompt "/img sunset" = "sunset"
    ∧ effPrompt "/image" = "/image"
    ∧ Eff.callImage (effPrompt "/img sunset")
        ∈ generateImageFlowTrace "/img sunset" (.error "boom") 0 1 2 := by
  have h := effPrompt_spec "/img sunset" (.error "boom") 0 1 2
  exact ⟨h.2.2.2.2.1, (effPrompt_spec "/image" (.error "boom") 0 1 2).2.2.2.2.2, h.1⟩

/-- C10: when the composer input trims to the empty string, handleSend is
a complete no-op: the effect trace is empty, the state (log, last-error
slot, in-flight flags, composer) is unchanged, and no message append and
no network call occur. -/
theorem handleSend_empty_noop (input : String) (chatReady : Bool)
    (uid aid tid imgId ts : Nat) (oc : ChatOutcome)
    (imgResp : Except String ImageResponse) (st : UIState)
    (h : trimS input = "") :
    handleSendTrace input chatReady uid aid tid imgId ts oc imgResp = []
    ∧ runEffs st (handleSendTrace input chatReady uid aid tid imgId ts oc imgResp) = st
    ∧ (∀ m, Eff.appendMsg m ∉ handleSendTrace input chatReady uid aid tid imgId ts oc imgResp)
    ∧ (∀ t, Eff.callChat t ∉ handleSendTrace input chatReady uid aid tid imgId ts oc imgResp)
    ∧ (∀ pr, Eff.callImage pr ∉ handleSendTrace input chatReady uid aid tid imgId ts oc imgResp) := by
  have h0 : handleSendTrace input chatReady uid aid tid imgId ts oc imgResp = [] := by
    simp [handleSendTrace, h]
  refine ⟨h0, by rw [h0]; rfl, ?_, ?_, ?_⟩
  · intro m
    rw [h0]
    simp
  · intro t
    rw [h0]
    simp
  · intro pr
    rw [h0]
    simp

/-- C10 witness: whitespace-only input against a concrete state. -/
theorem handleSend_empty_noop_witness :
    handleSendTrace "   " true 0 1 2 3 4 (.success ["hi"]) (.error "x") = []
    ∧ runEffs ⟨[welcomeMsg 0], "   ", none, false, false, 0, []⟩
        (handleSendTrace "   " true 0 1 2 3 4 (.success ["hi"]) (.error "x"))
      = ⟨[welcomeMsg 0], "   ", none, false, false, 0, []⟩ := by
  have h := handleSend_empty_noop "   " true 0 1 2 3 4 (.success ["hi"]) (.error "x")
    ⟨[welcomeMsg 0], "   ", none, false, false, 0, []⟩ (by decide)
  exact ⟨h.1, h.2.1⟩

/-- C3 witness: a stream that fails after one fragment, from an empty
log. -/
theorem sendFlow_error_overwrites_witness :
    (sendMessageFlow [] 1 (.failure ["Hel"] "net down")).1
      = [{ id := 1, sender := Sender.assistant,
           text := errPrefix ++ jsDisplay "net down", image := none, ts := none }]
    ∧ (sendMessageFlow [] 1 (.failure ["Hel"] "net down")).2
      = some (jsDisplay "net down") := by
  have h := sendFlow_error_overwrites [] 1 ["Hel"] "net down" (by simp)
  exact ⟨h.1, h.2.1⟩
